import Mathlib

/-!
Shallow embedding of the monk-commerce product-picker core: the data model
(`src/types.ts`), the fetch wrapper (`src/services/api.ts`), the picker's
pagination and selection state machine (`src/components/ProductPicker.tsx`),
and the drag-reorder handler (`src/App.tsx`).  Asynchronous `await` points are
modelled by splitting `loadProducts` into its synchronous prefix (`loadStart`)
and its post-await continuation (`loadFinish`); React `setX` updater calls
become explicit state transitions on `PickerState`.
-/

namespace Monk

/-- Discount kind from `types.ts` (`'percentage' | 'flat'`). -/
inductive DiscountType
  | percentage
  | flat
deriving DecidableEq, Repr

/-- `ApiVariant` from `types.ts`; `localId` is the field the fetch wrapper
decorates onto the raw API shape (empty for undecorated input). -/
structure ApiVariant where
  id : Nat
  product_id : Nat
  title : String
  price : String
  localId : String
deriving DecidableEq, Repr

/-- `ApiProduct` from `types.ts`; `imageSrc` models `image?.src`. -/
structure ApiProduct where
  id : Nat
  title : String
  variants : List ApiVariant
  imageSrc : Option String
deriving DecidableEq, Repr

/-- The `if (!API_KEY)` truthiness test in `api.ts`: the key is falsy when the
environment variable is absent or the empty string. -/
def isFalsyKey (apiKey : Option String) : Bool :=
  match apiKey with
  | none => true
  | some k => k = ""

/-- The per-product decoration performed on the success path of
`fetchProducts` in `api.ts`: each variant gets `localId = productId-variantId`. -/
def decorateProduct (product : ApiProduct) : ApiProduct :=
  { product with
      variants := product.variants.map fun variant =>
        { variant with localId := toString product.id ++ "-" ++ toString variant.id } }

/-- `fetchProducts` from `api.ts`.  The transport outcome of the HTTP call is
passed in explicitly; the function itself is total (it never rejects): a
missing key or a transport error both resolve to the empty list. -/
def fetchProducts (apiKey : Option String)
    (transport : Except String (List ApiProduct)) : List ApiProduct :=
  if isFalsyKey apiKey then []
  else
    match transport with
    | .ok data => data.map decorateProduct
    | .error _ => []

/-- The picker's pagination-related component state in `ProductPicker.tsx`
(`products`, `page`, `isLoading`, `hasMore`, `error`). -/
structure PickerState where
  products : List ApiProduct
  page : Nat
  isLoading : Bool
  hasMore : Bool
  error : Option String
deriving DecidableEq, Repr

/-- The `useState` initial values of the picker. -/
def initialPickerState : PickerState :=
  { products := [], page := 1, isLoading := false, hasMore := true, error := none }

/-- The non-reset `setProducts` updater of `loadProducts`: append the fetched
page, filtering out any product whose `id` already occurs in `prev`. -/
def appendDedup (prev fetched : List ApiProduct) : List ApiProduct :=
  prev ++ fetched.filter fun fp => !(prev.any fun p => p.id == fp.id)

/-- Synchronous prefix of `loadProducts` (up to the `await`): the
`isLoading || (!hasMore && !reset)` guard, then `setIsLoading(true)` and
`setError(null)`.  Returns whether a fetch was actually issued. -/
def loadStart (reset : Bool) (s : PickerState) : Bool × PickerState :=
  if s.isLoading || (!s.hasMore && !reset) then (false, s)
  else (true, { s with isLoading := true, error := none })

/-- Continuation of `loadProducts` after the `await`, applied to the state
current at resolution time.  `currentPage` and `reset` are the closure's
arguments; the `catch` branch records the error message and the `finally`
clears `isLoading`. -/
def loadFinish (currentPage : Nat) (reset : Bool)
    (outcome : Except String (List ApiProduct)) (s : PickerState) : PickerState :=
  match outcome with
  | .ok fetchedProducts =>
      { s with
          products := if reset then fetchedProducts else appendDedup s.products fetchedProducts,
          hasMore := fetchedProducts.length == 10,
          page := currentPage + 1,
          isLoading := false }
  | .error _ =>
      { s with error := some "Failed to load products. Please try again.", isLoading := false }

/-- `loadProducts` from `ProductPicker.tsx`, for the run in which no other
event interleaves between its start and its resolution.  The `term` argument
only parametrises the fetch, whose result is the `outcome` argument. -/
def loadProducts (_term : String) (currentPage : Nat) (reset : Bool)
    (outcome : Except String (List ApiProduct)) (s : PickerState) : PickerState :=
  let started := loadStart reset s
  if started.1 then loadFinish currentPage reset outcome started.2 else s

/-- `loadMoreItems` / the infinite-scroll load: `loadProducts(term, page)` with
`reset` defaulted to `false` and the current page cursor. -/
def loadNextPage (term : String) (outcome : Except String (List ApiProduct))
    (s : PickerState) : PickerState :=
  loadProducts term s.page false outcome s

/-- Synchronous body of the `debouncedSearchTerm` effect before it invokes
`loadProducts(term, 1, true)`: reset products, page and `hasMore`. -/
def searchEffectReset (s : PickerState) : PickerState :=
  { s with products := [], page := 1, hasMore := true }

/-- The `!isOpen` effect in `ProductPicker.tsx`: clear every piece of picker
state when the modal closes. -/
def closeEffectReset (_s : PickerState) : PickerState :=
  { products := [], page := 1, isLoading := false, hasMore := true, error := none }

/-! RowIndex: the flat virtual-list addressing of `ProductPicker.tsx`
(the `itemCount` memo, the `Row` component's index scan, and `getItemSize`). -/

/-- Fixed row heights from `ProductPicker.tsx`. -/
def PRODUCT_HEADER_HEIGHT : Nat := 56

/-- Fixed variant-row height from `ProductPicker.tsx`. -/
def VARIANT_ROW_HEIGHT : Nat := 60

/-- Fixed loader-row height from `ProductPicker.tsx`. -/
def LOADER_HEIGHT : Nat := 50

/-- The content-row count accumulated by the `itemCount` memo before the
loader row is added: `forEach` adds `1 + product.variants.length` per product. -/
def contentRows (products : List ApiProduct) : Nat :=
  products.foldl (fun count product => count + 1 + product.variants.length) 0

/-- `itemCount` from the memo in `ProductPicker.tsx`: content rows plus one
loader row when `hasMore`. -/
def itemCount (products : List ApiProduct) (hasMore : Bool) : Nat :=
  contentRows products + (if hasMore then 1 else 0)

/-- The row kind resolved by the `Row` component: a product header, a variant
row, the loading sentinel, or the `item == null` error fallback. -/
inductive RowKind
  | header (product : ApiProduct)
  | variantRow (product : ApiProduct) (variant : ApiVariant)
  | loader
  | notFound
deriving DecidableEq, Repr

/-- The cumulative-count scan of the `Row` component: at each product, relative
index 0 is the header, relative indices `1 .. variants.length` are variant
rows, and otherwise the scan continues with the next product. -/
def rowScan : List ApiProduct → Nat → RowKind
  | [], _ => .notFound
  | product :: rest, index =>
    if index = 0 then .header product
    else
      match product.variants.get? (index - 1) with
      | some variant => .variantRow product variant
      | none => rowScan rest (index - 1 - product.variants.length)

/-- Full row resolution of the `Row` component: the trailing loader row is
checked first (`hasMore && index === itemCount - 1`), then the product scan. -/
def resolveRow (products : List ApiProduct) (hasMore : Bool) (index : Nat) : RowKind :=
  if hasMore = true ∧ index = itemCount products hasMore - 1 then .loader
  else rowScan products index

/-- The cumulative-count scan of `getItemSize`, including its out-of-bounds
fallback of `VARIANT_ROW_HEIGHT`. -/
def sizeScan : List ApiProduct → Nat → Nat
  | [], _ => VARIANT_ROW_HEIGHT
  | product :: rest, index =>
    if index = 0 then PRODUCT_HEADER_HEIGHT
    else if index - 1 < product.variants.length then VARIANT_ROW_HEIGHT
    else sizeScan rest (index - 1 - product.variants.length)

/-- `getItemSize` from `ProductPicker.tsx`. -/
def getItemSize (products : List ApiProduct) (hasMore : Bool) (index : Nat) : Nat :=
  if hasMore = true ∧ index = itemCount products hasMore - 1 then LOADER_HEIGHT
  else sizeScan products index

/-- The height each row kind is rendered with (`notFound` rows fall back to
the variant height in `getItemSize`). -/
def rowHeightOf : RowKind → Nat
  | .header _ => PRODUCT_HEADER_HEIGHT
  | .variantRow _ _ => VARIANT_ROW_HEIGHT
  | .loader => LOADER_HEIGHT
  | .notFound => VARIANT_ROW_HEIGHT

/-! SelectionSet: the picker's `selectedVariants` record and
`handleSelectAllProductVariants` from `ProductPicker.tsx`. -/

/-- `SelectedVariantInfo` from `types.ts`: the spread variant fields plus the
denormalised parent context and discount metadata. -/
structure SelectedVariantInfo where
  id : Nat
  product_id : Nat
  title : String
  price : String
  localId : String
  productTitle : String
  productImageSrc : Option String
  discountType : Option DiscountType
  discountValue : Option Int
deriving DecidableEq, Repr

/-- The `selectedVariants` record, modelled as a partial map from the local
variant key to its entry. -/
def SelMap : Type := String → Option SelectedVariantInfo

/-- The composite local key `productId-variantId` used throughout the picker. -/
def selKey (variant : ApiVariant) : String :=
  toString variant.product_id ++ "-" ++ toString variant.id

/-- The entry written by the select-all branch for one variant: variant fields
spread in, parent context denormalised, and the discount fields read back from
`prevSelected` at the same key (falling back to null). -/
def selectAllEntry (product : ApiProduct) (prevSelected : SelMap)
    (variant : ApiVariant) : SelectedVariantInfo :=
  { id := variant.id, product_id := variant.product_id, title := variant.title,
    price := variant.price, localId := selKey variant,
    productTitle := product.title, productImageSrc := product.imageSrc,
    discountType := (prevSelected (selKey variant)).bind SelectedVariantInfo.discountType,
    discountValue := (prevSelected (selKey variant)).bind SelectedVariantInfo.discountValue }

/-- One iteration of the select-all `forEach`: overwrite the entry at the
variant's key. -/
def selectAllUpsert (product : ApiProduct) (prevSelected : SelMap)
    (newSelected : SelMap) (variant : ApiVariant) : SelMap :=
  fun k =>
    if k = selKey variant then some (selectAllEntry product prevSelected variant)
    else newSelected k

/-- The deselect-all `forEach`: delete every listed key. -/
def deselectAll (ids : List String) (m : SelMap) : SelMap :=
  fun k => if ids.contains k then none else m k

/-- `handleSelectAllProductVariants` from `ProductPicker.tsx` (lines 263-301):
if every variant of the product is selected, delete them all; otherwise
insert/overwrite an entry per variant, preserving existing discount fields. -/
def handleSelectAllProductVariants (product : ApiProduct)
    (prevSelected : SelMap) : SelMap :=
  let allVariantIds := product.variants.map selKey
  let areAllSelected := allVariantIds.all fun i => (prevSelected i).isSome
  if areAllSelected then deselectAll allVariantIds prevSelected
  else product.variants.foldl (selectAllUpsert product prevSelected) prevSelected

/-! ReorderEngine: committed `Product`/`Variant` shapes from `types.ts` and
`handleDragEnd` from `App.tsx`. -/

/-- Committed `Variant` from `types.ts`. -/
structure Variant where
  id : Nat
  product_id : Nat
  title : String
  price : String
  localId : String
  discountType : Option DiscountType
  discountValue : Option Int
deriving DecidableEq, Repr

/-- Committed `Product` from `types.ts`. -/
structure Product where
  localId : String
  apiId : Option Nat
  title : String
  imageSrc : Option String
  variants : List Variant
  discountType : Option DiscountType
  discountValue : Option Int
  showVariants : Bool
  isPlaceholder : Bool
deriving DecidableEq, Repr

/-- `arrayMove` from `@dnd-kit/sortable`: splice the element out of `fromIdx`
and splice it back in at `toIdx` (JS `splice` clamps an insertion index past
the end to an append). -/
def arrayMove {α : Type} (l : List α) (fromIdx toIdx : Nat) : List α :=
  match l.get? fromIdx with
  | none => l
  | some moved => (l.eraseIdx fromIdx).insertIdx (min toIdx (l.eraseIdx fromIdx).length) moved

/-- The drag-end event contract delivered by the dnd-kit sensors: `overId` is
`over?.id`, and the two `type` tags are `data.current?.type` of the active and
over entities. -/
structure DragEndEvent where
  activeId : String
  overId : Option String
  activeType : Option String
  overType : Option String
deriving DecidableEq, Repr

/-- The `PRODUCT`/`PRODUCT` branch of `handleDragEnd`: resolve both indices by
`localId` and `arrayMove`; leave the list untouched if either is missing. -/
def moveProduct (activeId overId : String) (ps : List Product) : List Product :=
  match ps.findIdx? (fun p => p.localId == activeId),
        ps.findIdx? (fun p => p.localId == overId) with
  | some oldIndex, some newIndex => arrayMove ps oldIndex newIndex
  | some _, none => ps
  | none, some _ => ps
  | none, none => ps

/-- The `VARIANT`/`VARIANT` branch of `handleDragEnd`: find the product owning
the dragged variant; if the drop target is a variant of the same product, move
it with `arrayMove`, otherwise (cross-product target, or missing indices)
leave the state unchanged. -/
def moveVariantWithin (activeId overId : String) (ps : List Product) : List Product :=
  match ps.findIdx? (fun p => p.variants.any fun v => v.localId == activeId) with
  | none => ps
  | some productIndex =>
    match ps.get? productIndex with
    | none => ps
    | some product =>
      if product.variants.any (fun v => v.localId == overId) then
        match product.variants.findIdx? (fun v => v.localId == activeId),
              product.variants.findIdx? (fun v => v.localId == overId) with
        | some oldVariantIndex, some newVariantIndex =>
            ps.set productIndex
              { product with
                  variants := arrayMove product.variants oldVariantIndex newVariantIndex }
        | some _, none => ps
        | none, some _ => ps
        | none, none => ps
      else ps

/-- `handleDragEnd` from `App.tsx` (lines 439-529): early exits for a missing
drop target and a self-drop, then dispatch on the tagged domain pair, with any
unhandled combination logged and ignored. -/
def handleDragEnd (ev : DragEndEvent) (ps : List Product) : List Product :=
  match ev.overId with
  | none => ps
  | some overId =>
    if ev.activeId = overId then ps
    else if ev.activeType = some "PRODUCT" ∧ ev.overType = some "PRODUCT" then
      moveProduct ev.activeId overId ps
    else if ev.activeType = some "VARIANT" ∧ ev.overType = some "VARIANT" then
      moveVariantWithin ev.activeId overId ps
    else ps

/-- Modelled from the spec: the `loadedGroups` value §8 asks for — "the
concatenation of pages in request order minus duplicates", keeping the first
occurrence of each remote id.  Used only to compare against the code-derived
`appendDedup` fold. -/
def dedupById (l : List ApiProduct) : List ApiProduct :=
  l.foldl (fun acc p => if acc.any (fun q => q.id == p.id) then acc else acc ++ [p]) []

/-! Concrete sample data used by witnesses and counterexamples. -/

/-- A variant-free sample catalog product with remote id `n`. -/
def sampleProduct (n : Nat) : ApiProduct :=
  { id := n, title := "P" ++ toString n, variants := [], imageSrc := none }

/-- A full page of ten distinct sample products. -/
def tenSample : List ApiProduct := (List.range 10).map sampleProduct

/-- A short page of four further distinct sample products. -/
def fourSample : List ApiProduct := (List.range 4).map (fun n => sampleProduct (10 + n))

/-- A fetched page containing the same remote id twice. -/
def dupPage : List ApiProduct := [sampleProduct 1, sampleProduct 1]

/-- The product returned by the slow, superseded query in the stale-response
scenario. -/
def staleProductA : ApiProduct := sampleProduct 101

/-- A sample catalog variant. -/
def sampleVariant (p i : Nat) : ApiVariant :=
  { id := i, product_id := p, title := "v" ++ toString i, price := "1", localId := "" }

/-- A sample catalog product with two variants. -/
def wProduct : ApiProduct :=
  { id := 7, title := "W", variants := [sampleVariant 7 1, sampleVariant 7 2], imageSrc := none }

/-! Claim theorems. -/

/-- C1.  The spec requires a generation-counter guard so that a response of a
superseded query never mutates state after a newer reset, and so that no
in-flight response mutates state after the picker closes.  The code has no
such guard: in the concrete interleaving below, query `a`'s fetch is issued;
while it is in flight the query changes to `b` (the search effect resets the
state, and `b`'s own `loadProducts` call no-ops because `isLoading` is still
`true`); when `a`'s response then resolves, its continuation overwrites the
reset state, so the final `products` are `a`'s results — and the same
continuation equally overwrites the state cleared by closing the picker. -/
theorem c1_stale_response_overwrites_after_reset :
    (loadStart true initialPickerState).1 = true ∧
    loadProducts "b" 1 true (Except.ok [])
        (searchEffectReset (loadStart true initialPickerState).2)
      = searchEffectReset (loadStart true initialPickerState).2 ∧
    (loadFinish 1 true (Except.ok [staleProductA])
        (searchEffectReset (loadStart true initialPickerState).2)).products
      = [staleProductA] ∧
    (loadFinish 1 true (Except.ok [staleProductA])
        (closeEffectReset (loadStart true initialPickerState).2)).products
      = [staleProductA] ∧
    (searchEffectReset (loadStart true initialPickerState).2).products = [] ∧
    ([staleProductA] : List ApiProduct) ≠ [] := by
  refine ⟨rfl, rfl, rfl, rfl, rfl, by simp⟩

/-- C2.  A fetch failure during a page load (state not guarded away) records
the error message in `error`, leaves `products`, `hasMore` and `page`
unchanged, and clears `isLoading`; the `catch` swallows the exception, so the
transition is a total function of the state — nothing propagates past the
boundary. -/
theorem c2_fetch_failure_atomic (term : String) (s : PickerState) (e : String)
    (h1 : s.isLoading = false) (h2 : s.hasMore = true) :
    (loadNextPage term (Except.error e) s).products = s.products ∧
    (loadNextPage term (Except.error e) s).hasMore = s.hasMore ∧
    (loadNextPage term (Except.error e) s).page = s.page ∧
    (loadNextPage term (Except.error e) s).isLoading = false ∧
    (loadNextPage term (Except.error e) s).error
      = some "Failed to load products. Please try again." := by
  unfold loadNextPage loadProducts loadStart loadFinish
  simp [h1, h2]

/-- Witness for C2 at the initial picker state and a concrete network error. -/
theorem c2_fetch_failure_atomic_witness :
    (loadNextPage "shoe" (Except.error "network") initialPickerState).products = [] ∧
    (loadNextPage "shoe" (Except.error "network") initialPickerState).hasMore = true ∧
    (loadNextPage "shoe" (Except.error "network") initialPickerState).error
      = some "Failed to load products. Please try again." := by
  have h := c2_fetch_failure_atomic "shoe" initialPickerState "network" rfl rfl
  exact ⟨h.1, h.2.1, h.2.2.2.2⟩

/-- C4.  `loadNextPage` is a no-op when `isLoading` or `!hasMore`; otherwise a
successful fetch appends the newly-seen products, advances the page cursor by
one, and sets `hasMore` exactly when the returned page has the requested size
of ten. -/
theorem c4_load_next_page (term : String) (s : PickerState)
    (outcome : Except String (List ApiProduct)) :
    (s.isLoading = true ∨ s.hasMore = false → loadNextPage term outcome s = s) ∧
    (s.isLoading = false → s.hasMore = true →
      ∀ fetched, outcome = Except.ok fetched →
        (loadNextPage term outcome s).products = appendDedup s.products fetched ∧
        (loadNextPage term outcome s).page = s.page + 1 ∧
        ((loadNextPage term outcome s).hasMore = true ↔ fetched.length = 10)) := by
  constructor
  · intro h
    unfold loadNextPage loadProducts loadStart
    rcases h with h | h <;> simp [h]
  · intro h1 h2 fetched hoc
    subst hoc
    unfold loadNextPage loadProducts loadStart loadFinish
    simp [h1, h2]

/-- Witness for C4: the concrete scenario of the spec — a full page of ten
yields `hasMore = true` and cursor 2, the following short page of four yields
`hasMore = false` and fourteen loaded products. -/
theorem c4_load_next_page_witness :
    (loadNextPage "shoe" (Except.ok tenSample) initialPickerState).products
      = appendDedup [] tenSample ∧
    (loadNextPage "shoe" (Except.ok tenSample) initialPickerState).page = 2 ∧
    (loadNextPage "shoe" (Except.ok tenSample) initialPickerState).hasMore = true ∧
    (loadNextPage "shoe" (Except.ok fourSample)
        (loadNextPage "shoe" (Except.ok tenSample) initialPickerState)).hasMore = false ∧
    (loadNextPage "shoe" (Except.ok fourSample)
        (loadNextPage "shoe" (Except.ok tenSample) initialPickerState)).products.length
      = 14 := by
  have h := (c4_load_next_page "shoe" initialPickerState
    (Except.ok tenSample)).2 rfl rfl tenSample rfl
  refine ⟨h.1, h.2.1, ?_, by decide, by decide⟩
  exact h.2.2.mpr (by decide)

/-- C10.  `fetchProducts` is modelled as a total function of the transport
outcome — it never rejects; with a falsy API key or a transport error it
resolves to the empty list, and feeding that empty page to `loadNextPage`
leaves the loaded products unchanged and ends pagination (`hasMore = false`),
exactly as an empty page would. -/
theorem c10_fetch_failure_is_empty_page (apiKey : Option String)
    (transport : Except String (List ApiProduct))
    (h : isFalsyKey apiKey = true ∨ ∃ e, transport = Except.error e) :
    fetchProducts apiKey transport = [] ∧
    (∀ term s, s.isLoading = false → s.hasMore = true →
      (loadNextPage term (Except.ok (fetchProducts apiKey transport)) s).products
        = s.products ∧
      (loadNextPage term (Except.ok (fetchProducts apiKey transport)) s).hasMore
        = false) := by
  have hempty : fetchProducts apiKey transport = [] := by
    unfold fetchProducts
    rcases h with h | ⟨e, he⟩
    · simp [h]
    · subst he
      cases hk : isFalsyKey apiKey <;> simp [hk]
  refine ⟨hempty, ?_⟩
  intro term s h1 h2
  rw [hempty]
  unfold loadNextPage loadProducts loadStart loadFinish appendDedup
  simp [h1, h2]

/-- Witness for C10: a missing API key, and separately a transport error under
a present key, both resolve to the empty list and end pagination. -/
theorem c10_fetch_failure_is_empty_page_witness :
    fetchProducts none (Except.ok tenSample) = [] ∧
    fetchProducts (some "key") (Except.error "http 500") = [] ∧
    (loadNextPage "shoe"
        (Except.ok (fetchProducts (some "key") (Except.error "http 500")))
        initialPickerState).hasMore = false := by
  have ha := c10_fetch_failure_is_empty_page none (Except.ok tenSample) (Or.inl rfl)
  have hb := c10_fetch_failure_is_empty_page (some "key") (Except.error "http 500")
    (Or.inr ⟨"http 500", rfl⟩)
  exact ⟨ha.1, hb.1, (hb.2 "shoe" initialPickerState rfl rfl).2⟩

/-! Supporting lemmas about the page-append dedup. -/

/-- Products kept by the dedup filter carry ids absent from the accumulator. -/
theorem appendDedup_nodup (acc pg : List ApiProduct)
    (hacc : (acc.map (fun p => p.id)).Nodup)
    (hpg : (pg.map (fun p => p.id)).Nodup) :
    ((appendDedup acc pg).map (fun p => p.id)).Nodup := by
  unfold appendDedup
  rw [List.map_append]
  refine List.Nodup.append hacc ?_ ?_
  · exact hpg.sublist (List.Sublist.map _ (List.filter_sublist _))
  · intro a ha hb
    simp only [List.mem_map] at ha hb
    obtain ⟨p, hp, rfl⟩ := ha
    obtain ⟨fp, hfp, hid⟩ := hb
    have hmem := List.of_mem_filter hfp
    simp only [Bool.not_eq_true', List.any_eq_false, beq_eq_false_iff_ne, ne_eq] at hmem
    exact hmem p hp (beq_iff_eq.mpr hid.symm)

/-- On a page with no internal duplicate ids, the block append-with-filter of
`appendDedup` agrees with the element-by-element first-occurrence fold. -/
theorem appendDedup_eq_step_fold (pg : List ApiProduct)
    (hpg : (pg.map (fun p => p.id)).Nodup) :
    ∀ acc, appendDedup acc pg
      = pg.foldl (fun a p => if a.any (fun q => q.id == p.id) then a else a ++ [p]) acc := by
  induction pg with
  | nil => intro acc; simp [appendDedup]
  | cons p rest ih =>
    intro acc
    simp only [List.map_cons, List.nodup_cons] at hpg
    by_cases h : acc.any (fun q => q.id == p.id)
    · have hfilter : (p :: rest).filter (fun fp => !(acc.any fun q => q.id == fp.id))
          = rest.filter (fun fp => !(acc.any fun q => q.id == fp.id)) := by
        rw [List.filter_cons]
        simp [h]
      unfold appendDedup at *
      rw [hfilter, List.foldl_cons, if_pos h]
      exact ih hpg.2 acc
    · have hfilter : (p :: rest).filter (fun fp => !(acc.any fun q => q.id == fp.id))
          = p :: rest.filter (fun fp => !(acc.any fun q => q.id == fp.id)) := by
        rw [List.filter_cons]
        simp [h]
      have hrest : rest.filter (fun fp => !((acc ++ [p]).any fun q => q.id == fp.id))
          = rest.filter (fun fp => !(acc.any fun q => q.id == fp.id)) := by
        apply List.filter_congr
        intro fp hfp
        have hne : p.id ≠ fp.id := by
          intro hcontra
          exact hpg.1 (List.mem_map.mpr ⟨fp, hfp, hcontra.symm⟩)
        simp [List.any_append, hne]
      calc appendDedup acc (p :: rest)
      _ = acc ++ (p :: rest.filter (fun fp => !(acc.any fun q => q.id == fp.id))) := by
            unfold appendDedup; rw [hfilter]
      _ = (acc ++ [p]) ++ rest.filter (fun fp => !((acc ++ [p]).any fun q => q.id == fp.id)) := by
            rw [hrest, List.append_assoc, List.singleton_append]
      _ = appendDedup (acc ++ [p]) rest := rfl
      _ = rest.foldl (fun a q => if a.any (fun r => r.id == q.id) then a else a ++ [q])
            (acc ++ [p]) := ih hpg.2 (acc ++ [p])
      _ = (p :: rest).foldl (fun a q => if a.any (fun r => r.id == q.id) then a else a ++ [q])
            acc := by rw [List.foldl_cons, if_neg h]

/-- Folding `appendDedup` over nodup pages equals the element-by-element
first-occurrence fold over their concatenation. -/
theorem foldl_appendDedup_eq (pages : List (List ApiProduct))
    (h : ∀ pg ∈ pages, (pg.map (fun p => p.id)).Nodup) :
    ∀ acc, pages.foldl appendDedup acc
      = pages.flatten.foldl
          (fun a p => if a.any (fun q => q.id == p.id) then a else a ++ [p]) acc := by
  induction pages with
  | nil => intro acc; rfl
  | cons pg rest ih =>
    intro acc
    rw [List.foldl_cons, List.flatten_cons, List.foldl_append,
      ih (fun x hx => h x (List.mem_cons_of_mem _ hx)),
      appendDedup_eq_step_fold pg (h pg (List.mem_cons_self _ _)) acc]

/-- The `appendDedup` fold preserves id-nodup-ness of the accumulator when
every appended page is internally nodup. -/
theorem foldl_appendDedup_nodup (pages : List (List ApiProduct)) :
    ∀ acc, (acc.map (fun p => p.id)).Nodup →
      (∀ pg ∈ pages, (pg.map (fun p => p.id)).Nodup) →
      ((pages.foldl appendDedup acc).map (fun p => p.id)).Nodup := by
  induction pages with
  | nil => intro acc hacc _; exact hacc
  | cons pg rest ih =>
    intro acc hacc h
    rw [List.foldl_cons]
    exact ih _ (appendDedup_nodup acc pg hacc (h pg (List.mem_cons_self _ _)))
      (fun x hx => h x (List.mem_cons_of_mem _ hx))

/-- C3 counterexample.  The dedup filter checks a fetched product only against
the already-loaded products, not against the rest of its own page: a single
page carrying the same remote id twice produces `loadedGroups` with a
duplicate id after one `loadNextPage`. -/
theorem c3_within_page_duplicate_survives :
    ¬ (((loadNextPage "" (Except.ok dupPage) initialPickerState).products.map
        (fun p => p.id)).Nodup) := by
  decide

/-- C3 (amended).  Provided each fetched page is internally free of duplicate
ids, any sequence of page appends yields `loadedGroups` with no duplicate
remote ids, equal to the concatenation of the pages in request order with
duplicates of already-present ids removed; and one non-reset `loadNextPage`
success updates the products exactly by `appendDedup`. -/
theorem c3_dedup_across_pages (pages : List (List ApiProduct))
    (h : ∀ pg ∈ pages, (pg.map (fun p => p.id)).Nodup) :
    ((pages.foldl appendDedup []).map (fun p => p.id)).Nodup ∧
    pages.foldl appendDedup [] = dedupById pages.flatten ∧
    (∀ term s pg, s.isLoading = false → s.hasMore = true →
      (loadNextPage term (Except.ok pg) s).products = appendDedup s.products pg) := by
  refine ⟨foldl_appendDedup_nodup pages [] (by simp) h, ?_, ?_⟩
  · rw [foldl_appendDedup_eq pages h []]
    rfl
  · intro term s pg h1 h2
    unfold loadNextPage loadProducts loadStart loadFinish
    simp [h1, h2]

/-- Witness for C3 at two concrete nodup pages with a cross-page duplicate. -/
theorem c3_dedup_across_pages_witness :
    (([[sampleProduct 1], [sampleProduct 1, sampleProduct 2]].foldl appendDedup []).map
      (fun p => p.id)).Nodup ∧
    [[sampleProduct 1], [sampleProduct 1, sampleProduct 2]].foldl appendDedup []
      = dedupById [[sampleProduct 1], [sampleProduct 1, sampleProduct 2]].flatten := by
  have h := c3_dedup_across_pages [[sampleProduct 1], [sampleProduct 1, sampleProduct 2]]
    (by decide)
  exact ⟨h.1, h.2.1⟩

/-! Supporting lemmas about the flat row scans. -/

/-- The row-count fold shifted by an arbitrary accumulator. -/
theorem contentRows_go (ps : List ApiProduct) :
    ∀ a, ps.foldl (fun count p => count + 1 + p.variants.length) a = a + contentRows ps := by
  induction ps with
  | nil => intro a; simp [contentRows]
  | cons p rest ih =>
    intro a
    have h1 : (p :: rest).foldl (fun count q => count + 1 + q.variants.length) a
        = rest.foldl (fun count q => count + 1 + q.variants.length)
            (a + 1 + p.variants.length) := rfl
    have h2 : contentRows (p :: rest)
        = rest.foldl (fun count q => count + 1 + q.variants.length)
            (0 + 1 + p.variants.length) := rfl
    rw [h1, ih, h2, ih]
    omega

/-- Unfolding one product of the content-row count. -/
theorem contentRows_cons (p : ApiProduct) (rest : List ApiProduct) :
    contentRows (p :: rest) = 1 + p.variants.length + contentRows rest := by
  have h2 : contentRows (p :: rest)
      = rest.foldl (fun count q => count + 1 + q.variants.length)
          (0 + 1 + p.variants.length) := rfl
  rw [h2, contentRows_go]

/-- Past the content rows, the `Row` scan falls through every product and ends
in the `notFound` fallback. -/
theorem rowScan_oob (products : List ApiProduct) :
    ∀ index, contentRows products ≤ index → rowScan products index = RowKind.notFound := by
  induction products with
  | nil => intro index _; rfl
  | cons p rest ih =>
    intro index h
    rw [contentRows_cons] at h
    unfold rowScan
    rw [if_neg (by omega : ¬ index = 0)]
    have hg : p.variants.get? (index - 1) = none := by
      rw [List.get?_eq_none]
      omega
    rw [hg]
    exact ih _ (by omega)

/-- Past the content rows, `getItemSize`'s scan returns the variant-height
fallback. -/
theorem sizeScan_oob (products : List ApiProduct) :
    ∀ index, contentRows products ≤ index → sizeScan products index = VARIANT_ROW_HEIGHT := by
  induction products with
  | nil => intro index _; rfl
  | cons p rest ih =>
    intro index h
    rw [contentRows_cons] at h
    unfold sizeScan
    rw [if_neg (by omega : ¬ index = 0), if_neg (by omega : ¬ index - 1 < p.variants.length)]
    exact ih _ (by omega)

/-- C9.  A position at or past `totalRows` hits no loader check and no
product, so both queries return their defined terminal values: the error row
kind and the fixed fallback height — never an out-of-bounds access (both
functions are total). -/
theorem c9_out_of_range_defined (products : List ApiProduct) (hasMore : Bool) (index : Nat)
    (h : itemCount products hasMore ≤ index) :
    resolveRow products hasMore index = RowKind.notFound ∧
    getItemSize products hasMore index = VARIANT_ROW_HEIGHT := by
  have hcr : contentRows products ≤ index := by
    unfold itemCount at h
    cases hasMore <;> simp at h <;> omega
  have hcond : ¬(hasMore = true ∧ index = itemCount products hasMore - 1) := by
    rintro ⟨hm, hi⟩
    subst hm
    unfold itemCount at h hi
    simp at h hi
    omega
  unfold resolveRow getItemSize
  rw [if_neg hcond, if_neg hcond]
  exact ⟨rowScan_oob _ _ hcr, sizeScan_oob _ _ hcr⟩

/-- Witness for C9 at a concrete two-variant product and position 99. -/
theorem c9_out_of_range_defined_witness :
    resolveRow [wProduct] true 99 = RowKind.notFound ∧
    getItemSize [wProduct] true 99 = VARIANT_ROW_HEIGHT := by
  exact c9_out_of_range_defined [wProduct] true 99 (by decide)

/-- Successor-index step of the `Row` scan on a nonempty list. -/
theorem rowScan_cons_succ (p : ApiProduct) (rest : List ApiProduct) (i : Nat) :
    rowScan (p :: rest) (i + 1)
      = match p.variants.get? i with
        | some v => RowKind.variantRow p v
        | none => rowScan rest (i - p.variants.length) := by
  show (if i + 1 = 0 then RowKind.header p
    else match p.variants.get? (i + 1 - 1) with
      | some v => RowKind.variantRow p v
      | none => rowScan rest (i + 1 - 1 - p.variants.length)) = _
  rw [if_neg (Nat.succ_ne_zero i)]
  simp [Nat.add_sub_cancel]

/-- Successor-index step of the `getItemSize` scan on a nonempty list. -/
theorem sizeScan_cons_succ (p : ApiProduct) (rest : List ApiProduct) (i : Nat) :
    sizeScan (p :: rest) (i + 1)
      = if i < p.variants.length then VARIANT_ROW_HEIGHT
        else sizeScan rest (i - p.variants.length) := by
  show (if i + 1 = 0 then PRODUCT_HEADER_HEIGHT
    else if i + 1 - 1 < p.variants.length then VARIANT_ROW_HEIGHT
    else sizeScan rest (i + 1 - 1 - p.variants.length)) = _
  rw [if_neg (Nat.succ_ne_zero i)]
  simp [Nat.add_sub_cancel]

/-- The size scan skips one whole product when the index clears its rows. -/
theorem sizeScan_shift (p : ApiProduct) (rest : List ApiProduct) (i : Nat) :
    sizeScan (p :: rest) (1 + p.variants.length + i) = sizeScan rest i := by
  have h : 1 + p.variants.length + i = (p.variants.length + i) + 1 := by omega
  rw [h, sizeScan_cons_succ, if_neg (by omega), Nat.add_sub_cancel_left]

/-- The `Row` scan never produces the loading sentinel; that row is added only
by the `itemCount - 1` check in front of it. -/
theorem rowScan_ne_loader (products : List ApiProduct) :
    ∀ index, rowScan products index ≠ RowKind.loader := by
  induction products with
  | nil => intro index h; exact RowKind.noConfusion h
  | cons p rest ih =>
    intro index
    match index with
    | 0 => intro h; exact RowKind.noConfusion h
    | i + 1 =>
      rw [rowScan_cons_succ]
      cases hg : p.variants.get? i with
      | some v => intro h; exact RowKind.noConfusion h
      | none => exact ih _

/-- Inside the content rows, the `Row` scan resolves to a real row, never the
`notFound` fallback. -/
theorem rowScan_in_range (products : List ApiProduct) :
    ∀ index, index < contentRows products → rowScan products index ≠ RowKind.notFound := by
  induction products with
  | nil =>
    intro index h
    simp [contentRows] at h
  | cons p rest ih =>
    intro index h
    rw [contentRows_cons] at h
    match index with
    | 0 => intro hc; exact RowKind.noConfusion hc
    | i + 1 =>
      rw [rowScan_cons_succ]
      cases hg : p.variants.get? i with
      | some v => intro hc; exact RowKind.noConfusion hc
      | none =>
        have hlen : p.variants.length ≤ i := by
          by_contra hlt
          rw [List.get?_eq_get (by omega)] at hg
          exact Option.noConfusion hg
        exact ih _ (by omega)

/-- The two scans agree row by row: the height returned by `getItemSize`'s
scan is the height of the kind resolved by the `Row` scan. -/
theorem sizeScan_eq_rowHeight (products : List ApiProduct) :
    ∀ index, sizeScan products index = rowHeightOf (rowScan products index) := by
  induction products with
  | nil => intro index; rfl
  | cons p rest ih =>
    intro index
    match index with
    | 0 => rfl
    | i + 1 =>
      rw [sizeScan_cons_succ, rowScan_cons_succ]
      cases hg : p.variants.get? i with
      | some v =>
        have hlt : i < p.variants.length := by
          by_contra hge
          rw [List.get?_eq_none.mpr (by omega)] at hg
          exact Option.noConfusion hg
        simp [hlt, rowHeightOf]
      | none =>
        have hge : p.variants.length ≤ i := by
          by_contra hlt
          rw [List.get?_eq_get (by omega)] at hg
          exact Option.noConfusion hg
        rw [if_neg (by omega)]
        exact ih _

/-- Splitting a sum of `f` over `range (a + b)` at `a`. -/
theorem sum_range_split (f : Nat → Nat) (a b : Nat) :
    ((List.range (a + b)).map f).sum
      = ((List.range a).map f).sum + ((List.range b).map (fun i => f (a + i))).sum := by
  rw [List.range_add a b, List.map_append, List.sum_append, List.map_map]
  rfl

/-- A sum of a range-map whose values are constant. -/
theorem sum_range_const (f : Nat → Nat) (c : Nat) :
    ∀ n, (∀ i, i < n → f i = c) → ((List.range n).map f).sum = c * n := by
  intro n
  induction n with
  | zero => intro _; rfl
  | succ m ih =>
    intro h
    rw [List.range_succ m, List.map_append, List.sum_append,
      ih (fun i hi => h i (by omega))]
    simp [h m (by omega), Nat.mul_succ]

/-- Total height of the content rows: one header height per product plus one
variant height per variant. -/
theorem sizeScan_sum (products : List ApiProduct) :
    ((List.range (contentRows products)).map (sizeScan products)).sum
      = PRODUCT_HEADER_HEIGHT * products.length
        + VARIANT_ROW_HEIGHT * (products.map (fun p => p.variants.length)).sum := by
  induction products with
  | nil => simp [contentRows]
  | cons p rest ih =>
    rw [contentRows_cons, sum_range_split (sizeScan (p :: rest))
      (1 + p.variants.length) (contentRows rest)]
    have hblock : ((List.range (1 + p.variants.length)).map (sizeScan (p :: rest))).sum
        = PRODUCT_HEADER_HEIGHT + VARIANT_ROW_HEIGHT * p.variants.length := by
      rw [sum_range_split (sizeScan (p :: rest)) 1 p.variants.length]
      have h0 : ((List.range 1).map (sizeScan (p :: rest))).sum = PRODUCT_HEADER_HEIGHT := rfl
      have hv : ((List.range p.variants.length).map
          (fun i => sizeScan (p :: rest) (1 + i))).sum
          = VARIANT_ROW_HEIGHT * p.variants.length := by
        apply sum_range_const
        intro i hi
        rw [Nat.add_comm 1 i, sizeScan_cons_succ, if_pos hi]
      rw [h0, hv]
    have hshift : ((List.range (contentRows rest)).map
        (fun i => sizeScan (p :: rest) (1 + p.variants.length + i))).sum
        = ((List.range (contentRows rest)).map (sizeScan rest)).sum := by
      congr 1
      apply List.map_congr_left
      intro i _
      exact sizeScan_shift p rest i
    rw [hblock, hshift, ih]
    simp only [List.length_cons, List.map_cons, List.sum_cons]
    ring

/-- The content-row count is the sum the spec states. -/
theorem contentRows_eq_sum (products : List ApiProduct) :
    contentRows products = (products.map (fun p => 1 + p.variants.length)).sum := by
  induction products with
  | nil => rfl
  | cons p rest ih =>
    rw [contentRows_cons, List.map_cons, List.sum_cons, ih]

/-- C5.  For the current snapshot: `totalRows` is the sum over products of one
header plus the variant count, plus one when `hasMore`; every flat position
resolves to a single row kind whose fixed height is exactly what
`getItemSize` returns; positions inside `[0, totalRows)` never hit the error
fallback and hit the loading sentinel exactly at the trailing position when
`hasMore`; and the heights over all of `[0, totalRows)` sum to the header
height times the product count plus the variant height times the variant
count plus the loader height when `hasMore`. -/
theorem c5_flat_row_addressing (products : List ApiProduct) (hasMore : Bool) :
    itemCount products hasMore
      = (products.map (fun p => 1 + p.variants.length)).sum
        + (if hasMore then 1 else 0) ∧
    (∀ index, getItemSize products hasMore index
      = rowHeightOf (resolveRow products hasMore index)) ∧
    (∀ index, index < itemCount products hasMore →
      resolveRow products hasMore index ≠ RowKind.notFound ∧
      (resolveRow products hasMore index = RowKind.loader ↔
        hasMore = true ∧ index = itemCount products hasMore - 1)) ∧
    ((List.range (itemCount products hasMore)).map (getItemSize products hasMore)).sum
      = PRODUCT_HEADER_HEIGHT * products.length
        + VARIANT_ROW_HEIGHT * (products.map (fun p => p.variants.length)).sum
        + (if hasMore then LOADER_HEIGHT else 0) := by
  refine ⟨?_, ?_, ?_, ?_⟩
  · rw [← contentRows_eq_sum]
    rfl
  · intro index
    unfold getItemSize resolveRow
    by_cases hcond : hasMore = true ∧ index = itemCount products hasMore - 1
    · rw [if_pos hcond, if_pos hcond]
      rfl
    · rw [if_neg hcond, if_neg hcond]
      exact sizeScan_eq_rowHeight products index
  · intro index hlt
    by_cases hcond : hasMore = true ∧ index = itemCount products hasMore - 1
    · have hres : resolveRow products hasMore index = RowKind.loader := by
        unfold resolveRow
        rw [if_pos hcond]
      exact ⟨by rw [hres]; intro hc; exact RowKind.noConfusion hc,
        by rw [hres]; exact ⟨fun _ => hcond, fun _ => rfl⟩⟩
    · have hres : resolveRow products hasMore index = rowScan products index := by
        unfold resolveRow
        rw [if_neg hcond]
      have hcr : index < contentRows products := by
        cases hm : hasMore with
        | false =>
          unfold itemCount at hlt
          rw [hm] at hlt
          simpa using hlt
        | true =>
          rw [hm] at hcond hlt
          have h1 : itemCount products true = contentRows products + 1 := by
            unfold itemCount
            simp
          rw [h1] at hlt hcond
          have : ¬ index = contentRows products + 1 - 1 := fun h => hcond ⟨rfl, h⟩
          omega
      refine ⟨by rw [hres]; exact rowScan_in_range products index hcr, ?_⟩
      rw [hres]
      exact ⟨fun h => absurd h (rowScan_ne_loader products index),
        fun h => absurd h hcond⟩
  · cases hm : hasMore with
    | false =>
      have hic : itemCount products false = contentRows products := by
        unfold itemCount
        simp
      rw [hic]
      have hcongr : (List.range (contentRows products)).map (getItemSize products false)
          = (List.range (contentRows products)).map (sizeScan products) := by
        apply List.map_congr_left
        intro i _
        unfold getItemSize
        rw [if_neg (by simp)]
      rw [hcongr, sizeScan_sum]
      simp
    | true =>
      have hic : itemCount products true = contentRows products + 1 := by
        unfold itemCount
        simp
      rw [hic, List.range_succ (contentRows products), List.map_append, List.sum_append]
      have hcongr : (List.range (contentRows products)).map (getItemSize products true)
          = (List.range (contentRows products)).map (sizeScan products) := by
        apply List.map_congr_left
        intro i hi
        rw [List.mem_range] at hi
        unfold getItemSize
        rw [if_neg (by rw [hic]; omega)]
      have hlast : getItemSize products true (contentRows products) = LOADER_HEIGHT := by
        unfold getItemSize
        rw [if_pos ⟨rfl, by rw [hic]; omega⟩]
      rw [hcongr, sizeScan_sum]
      simp [hlast]

/-- Witness for C5 at a concrete one-product, two-variant snapshot with a
pending loader row. -/
theorem c5_flat_row_addressing_witness :
    itemCount [wProduct] true = 4 ∧
    resolveRow [wProduct] true 3 = RowKind.loader ∧
    getItemSize [wProduct] true 1 = rowHeightOf (resolveRow [wProduct] true 1) ∧
    ((List.range (itemCount [wProduct] true)).map (getItemSize [wProduct] true)).sum
      = 226 := by
  have h := c5_flat_row_addressing [wProduct] true
  refine ⟨by decide, ?_, h.2.1 1, ?_⟩
  · exact (h.2.2.1 3 (by decide)).2.mpr ⟨rfl, by decide⟩
  · rw [h.2.2.2]
    decide

/-! Supporting lemmas about the drag-reorder handler. -/

/-- A found index is inside the list. -/
theorem findIdx?_some_lt {α : Type} (l : List α) (p : α → Bool) (i : Nat)
    (h : l.findIdx? p = some i) : i < l.length := by
  rw [List.findIdx?_eq_some_iff_findIdx_eq] at h
  exact h.1

/-- For in-range indices, `arrayMove` is exactly the positional move: erase the
source element and reinsert it at the target index. -/
theorem arrayMove_eq {α : Type} (l : List α) (fromIdx toIdx : Nat) (x : α)
    (hf : l.get? fromIdx = some x) (ht : toIdx < l.length) :
    arrayMove l fromIdx toIdx = (l.eraseIdx fromIdx).insertIdx toIdx x := by
  unfold arrayMove
  rw [hf]
  have hflt : fromIdx < l.length := by
    rw [List.get?_eq_some] at hf
    exact hf.1
  have hlen : (l.eraseIdx fromIdx).length = l.length - 1 := by
    simp [List.length_eraseIdx, hflt]
  rw [hlen, Nat.min_eq_left (by omega)]

/-- Reduction of `handleDragEnd` once the drop target is known to exist. -/
theorem handleDragEnd_some (ev : DragEndEvent) (ps : List Product) (overId : String)
    (hov : ev.overId = some overId) :
    handleDragEnd ev ps
      = (if ev.activeId = overId then ps
        else if ev.activeType = some "PRODUCT" ∧ ev.overType = some "PRODUCT" then
          moveProduct ev.activeId overId ps
        else if ev.activeType = some "VARIANT" ∧ ev.overType = some "VARIANT" then
          moveVariantWithin ev.activeId overId ps
        else ps) := by
  unfold handleDragEnd
  rw [hov]

/-- C7.  A qualifying group-domain drag-end (drop target present, distinct
from the source, both tagged `PRODUCT`) whose two keys resolve performs the
positional move — the source group is erased from its index and reinserted at
the target group's index; if either key fails to resolve, the list is returned
unchanged. -/
theorem c7_group_positional_move (ev : DragEndEvent) (ps : List Product) (overId : String)
    (hov : ev.overId = some overId)
    (hne : ev.activeId ≠ overId)
    (hat : ev.activeType = some "PRODUCT")
    (hot : ev.overType = some "PRODUCT") :
    (∀ oldIndex newIndex moved,
      ps.findIdx? (fun p => p.localId == ev.activeId) = some oldIndex →
      ps.findIdx? (fun p => p.localId == overId) = some newIndex →
      ps.get? oldIndex = some moved →
      handleDragEnd ev ps = (ps.eraseIdx oldIndex).insertIdx newIndex moved) ∧
    ((ps.findIdx? (fun p => p.localId == ev.activeId) = none ∨
      ps.findIdx? (fun p => p.localId == overId) = none) →
      handleDragEnd ev ps = ps) := by
  have hmain : handleDragEnd ev ps = moveProduct ev.activeId overId ps := by
    rw [handleDragEnd_some ev ps overId hov, if_neg hne, if_pos ⟨hat, hot⟩]
  constructor
  · intro oldIndex newIndex moved hfa hfo hget
    rw [hmain]
    unfold moveProduct
    rw [hfa, hfo]
    exact arrayMove_eq ps oldIndex newIndex moved hget (findIdx?_some_lt _ _ _ hfo)
  · intro h
    rw [hmain]
    unfold moveProduct
    rcases h with h | h
    · rw [h]
      cases hfo : ps.findIdx? (fun p => p.localId == overId) <;> rfl
    · rw [h]
      cases hfa : ps.findIdx? (fun p => p.localId == ev.activeId) <;> rfl

/-- A committed group with the given key and no variants. -/
def mkGroup (s : String) : Product :=
  { localId := s, apiId := none, title := s, imageSrc := none, variants := [],
    discountType := none, discountValue := none, showVariants := false,
    isPlaceholder := false }

/-- A committed sub-item with the given key. -/
def mkSub (s : String) : Variant :=
  { id := 0, product_id := 0, title := s, price := "1", localId := s,
    discountType := none, discountValue := none }

/-- The four-group list `[A, B, C, D]` of the spec scenario. -/
def groupsABCD : List Product := [mkGroup "A", mkGroup "B", mkGroup "C", mkGroup "D"]

/-- Dragging group `A` onto group `C`. -/
def evAontoC : DragEndEvent :=
  { activeId := "A", overId := some "C",
    activeType := some "PRODUCT", overType := some "PRODUCT" }

/-- Witness for C7: from `[A, B, C, D]`, dragging `A` onto `C` yields
`[B, C, A, D]` — a positional shift, not a swap. -/
theorem c7_group_positional_move_witness :
    handleDragEnd evAontoC groupsABCD
      = [mkGroup "B", mkGroup "C", mkGroup "A", mkGroup "D"] := by
  have h := (c7_group_positional_move evAontoC groupsABCD "C" rfl (by decide)
    rfl rfl).1 0 2 (mkGroup "A") (by decide) (by decide) rfl
  rw [h]
  rfl

/-- C8.  Every non-qualifying drag-end returns the selection list unchanged
(never a partial write): no drop target; a drop target equal to the source; an
unhandled domain combination; and a sub-item dropped onto a sub-item that is
not in the source sub-item's own group (the cross-group move rejection). -/
theorem c8_non_qualifying_is_no_op (ev : DragEndEvent) (ps : List Product) :
    (ev.overId = none → handleDragEnd ev ps = ps) ∧
    (ev.overId = some ev.activeId → handleDragEnd ev ps = ps) ∧
    (∀ overId, ev.overId = some overId →
      ¬(ev.activeType = some "PRODUCT" ∧ ev.overType = some "PRODUCT") →
      ¬(ev.activeType = some "VARIANT" ∧ ev.overType = some "VARIANT") →
      handleDragEnd ev ps = ps) ∧
    (∀ overId productIndex product, ev.overId = some overId →
      ev.activeId ≠ overId →
      ev.activeType = some "VARIANT" → ev.overType = some "VARIANT" →
      ps.findIdx? (fun p => p.variants.any fun v => v.localId == ev.activeId)
        = some productIndex →
      ps.get? productIndex = some product →
      product.variants.any (fun v => v.localId == overId) = false →
      handleDragEnd ev ps = ps) := by
  refine ⟨?_, ?_, ?_, ?_⟩
  · intro h
    unfold handleDragEnd
    rw [h]
  · intro h
    rw [handleDragEnd_some ev ps ev.activeId h, if_pos rfl]
  · intro overId hov hpp hvv
    rw [handleDragEnd_some ev ps overId hov]
    by_cases heq : ev.activeId = overId
    · rw [if_pos heq]
    · rw [if_neg heq, if_neg hpp, if_neg hvv]
  · intro overId productIndex product hov hne hat hot hfi hget hany
    rw [handleDragEnd_some ev ps overId hov, if_neg hne]
    have hpp : ¬(ev.activeType = some "PRODUCT" ∧ ev.overType = some "PRODUCT") := by
      rintro ⟨h1, _⟩
      rw [hat] at h1
      exact (by decide : ((some "VARIANT" : Option String) = some "PRODUCT") → False) h1
    rw [if_neg hpp, if_pos ⟨hat, hot⟩]
    unfold moveVariantWithin
    rw [hfi]
    simp only [hget]
    rw [if_neg (by rw [hany]; exact Bool.false_ne_true)]

/-- Group `G1` with sub-items `[x, y, z]`. -/
def groupXYZ : Product := { mkGroup "G1" with variants := [mkSub "x", mkSub "y", mkSub "z"] }

/-- Group `G2` with sub-items `[u, w]`. -/
def groupUW : Product := { mkGroup "G2" with variants := [mkSub "u", mkSub "w"] }

/-- Dragging sub-item `z` of `G1` onto sub-item `u` of `G2`. -/
def evCrossGroup : DragEndEvent :=
  { activeId := "z", overId := some "u",
    activeType := some "VARIANT", overType := some "VARIANT" }

/-- A drag-end with no drop target at all. -/
def evNoTarget : DragEndEvent :=
  { activeId := "z", overId := none,
    activeType := some "VARIANT", overType := none }

/-- Witness for C8: the concrete cross-group sub-item drop and the
no-drop-target case both leave the two-group list untouched. -/
theorem c8_non_qualifying_is_no_op_witness :
    handleDragEnd evCrossGroup [groupXYZ, groupUW] = [groupXYZ, groupUW] ∧
    handleDragEnd evNoTarget [groupXYZ, groupUW] = [groupXYZ, groupUW] := by
  constructor
  · exact (c8_non_qualifying_is_no_op evCrossGroup [groupXYZ, groupUW]).2.2.2
      "u" 0 groupXYZ rfl (by decide) rfl rfl (by decide) rfl (by decide)
  · exact (c8_non_qualifying_is_no_op evNoTarget [groupXYZ, groupUW]).1 rfl

/-! Supporting lemmas about the select-all fold. -/

/-- Keys outside the group's variant keys are untouched by the select-all
fold. -/
theorem selectFold_not_mem (product : ApiProduct) (prevSelected : SelMap) :
    ∀ (vs : List ApiVariant) (acc : SelMap) (k : String), k ∉ vs.map selKey →
      vs.foldl (selectAllUpsert product prevSelected) acc k = acc k := by
  intro vs
  induction vs with
  | nil => intro acc k _; rfl
  | cons u rest ih =>
    intro acc k hk
    rw [List.map_cons, List.mem_cons] at hk
    push_neg at hk
    rw [List.foldl_cons, ih _ k hk.2]
    unfold selectAllUpsert
    rw [if_neg hk.1]

/-- At the key of a member variant, the select-all fold stores the entry built
for some variant of the group carrying that same key. -/
theorem selectFold_mem (product : ApiProduct) (prevSelected : SelMap) :
    ∀ (vs : List ApiVariant) (acc : SelMap) (v : ApiVariant), v ∈ vs →
      ∃ w, w ∈ vs ∧ selKey w = selKey v ∧
        vs.foldl (selectAllUpsert product prevSelected) acc (selKey v)
          = some (selectAllEntry product prevSelected w) := by
  intro vs
  induction vs with
  | nil => intro acc v hv; exact absurd hv (List.not_mem_nil v)
  | cons u rest ih =>
    intro acc v hv
    rw [List.foldl_cons]
    by_cases hex : ∃ w ∈ rest, selKey w = selKey v
    · obtain ⟨w, hwm, hwk⟩ := hex
      obtain ⟨w', hw'm, hw'k, heq⟩ := ih (selectAllUpsert product prevSelected acc u) w hwm
      rw [hwk] at heq hw'k
      exact ⟨w', List.mem_cons_of_mem u hw'm, hw'k, heq⟩
    · have hvu : v = u := by
        rcases List.mem_cons.mp hv with h | h
        · exact h
        · exact absurd ⟨v, h, rfl⟩ hex
      subst hvu
      have hnot : selKey v ∉ rest.map selKey := by
        intro hmem
        obtain ⟨w, hwm, hwk⟩ := List.mem_map.mp hmem
        exact hex ⟨w, hwm, hwk⟩
      rw [selectFold_not_mem product prevSelected rest _ _ hnot]
      refine ⟨v, List.mem_cons_self v rest, rfl, ?_⟩
      unfold selectAllUpsert
      rw [if_pos rfl]

/-- C6.  `toggleAllInGroup`: keys not derived from the group's own sub-items
are never affected; when every sub-item key is selected, all of them are
removed; otherwise every sub-item key ends up selected, and the stored entry's
discount fields equal whatever the previous selection held at that key (a
previously set discount survives re-selection, an unselected key gets null
discounts). -/
theorem c6_toggle_all_in_group (product : ApiProduct) (prevSelected : SelMap) :
    (∀ k, k ∉ product.variants.map selKey →
      handleSelectAllProductVariants product prevSelected k = prevSelected k) ∧
    (((product.variants.map selKey).all fun i => (prevSelected i).isSome) = true →
      ∀ v ∈ product.variants,
        handleSelectAllProductVariants product prevSelected (selKey v) = none) ∧
    (((product.variants.map selKey).all fun i => (prevSelected i).isSome) = false →
      ∀ v ∈ product.variants,
        ∃ e, handleSelectAllProductVariants product prevSelected (selKey v) = some e ∧
          e.discountType = (prevSelected (selKey v)).bind SelectedVariantInfo.discountType ∧
          e.discountValue
            = (prevSelected (selKey v)).bind SelectedVariantInfo.discountValue) := by
  refine ⟨?_, ?_, ?_⟩
  · intro k hk
    unfold handleSelectAllProductVariants
    by_cases hall : ((product.variants.map selKey).all fun i => (prevSelected i).isSome) = true
    · rw [if_pos hall]
      unfold deselectAll
      rw [if_neg (by simpa using hk)]
    · rw [if_neg hall]
      exact selectFold_not_mem product prevSelected product.variants prevSelected k hk
  · intro hall v hv
    unfold handleSelectAllProductVariants
    rw [if_pos hall]
    unfold deselectAll
    rw [if_pos (by simpa using List.mem_map_of_mem selKey hv)]
  · intro hall v hv
    unfold handleSelectAllProductVariants
    rw [if_neg (by rw [hall]; exact Bool.false_ne_true)]
    obtain ⟨w, _, hwk, heq⟩ :=
      selectFold_mem product prevSelected product.variants prevSelected v hv
    refine ⟨selectAllEntry product prevSelected w, heq, ?_, ?_⟩
    · unfold selectAllEntry
      rw [hwk]
    · unfold selectAllEntry
      rw [hwk]

/-- The empty selection. -/
def emptySel : SelMap := fun _ => none

/-- A selection holding only the first variant of `wProduct`, with a discount
already set on it. -/
def partialSel : SelMap := fun k =>
  if k = selKey (sampleVariant 7 1) then
    some { selectAllEntry wProduct emptySel (sampleVariant 7 1) with
            discountType := some DiscountType.flat, discountValue := some 5 }
  else none

/-- Witness for C6: with variant 1 selected (carrying a flat-5 discount) and
variant 2 not, select-all selects variant 2, keeps variant 1's discount, and
leaves an unrelated key untouched. -/
theorem c6_toggle_all_in_group_witness :
    ((handleSelectAllProductVariants wProduct partialSel)
      (selKey (sampleVariant 7 2))).isSome = true ∧
    ((handleSelectAllProductVariants wProduct partialSel)
      (selKey (sampleVariant 7 1))).bind SelectedVariantInfo.discountType
      = some DiscountType.flat ∧
    ((handleSelectAllProductVariants wProduct partialSel)
      (selKey (sampleVariant 7 1))).bind SelectedVariantInfo.discountValue
      = some 5 ∧
    (handleSelectAllProductVariants wProduct partialSel) "9-9" = partialSel "9-9" := by
  have h := c6_toggle_all_in_group wProduct partialSel
  obtain ⟨e2, he2, _, _⟩ := h.2.2 (by decide) (sampleVariant 7 2) (by decide)
  obtain ⟨e1, he1, hdt, hdv⟩ := h.2.2 (by decide) (sampleVariant 7 1) (by decide)
  refine ⟨by rw [he2]; rfl, ?_, ?_, h.1 "9-9" (by decide)⟩
  · rw [he1, Option.some_bind, hdt]
    decide
  · rw [he1, Option.some_bind, hdv]
    decide

end Monk
